import Mathlib

/-!
# Verification of the BetterMode API scraper (`main.go`)

A shallow embedding of the Go program in `main.go`. Go strings are modelled
as `List Char` (Go iterates runes with `for _, r := range s`; all patterns
used by the program are ASCII, for which byte-level search in
`strings.ReplaceAll`/`strings.Contains` coincides with rune-level search on
valid UTF-8). Machine time is modelled in whole seconds as `Nat`.

Network effects are modelled by passing the environment's responses as
explicit data: each upstream interaction point takes the outcome the network
would have produced, and the functions compute exactly what the Go code
computes from that outcome.
-/

/-- Convert a Lean string literal to the `List Char` model of a Go string. -/
def str (s : String) : List Char := s.data

/-! ## `strings.ReplaceAll` / `strings.Contains` -/

/-- One pass of Go's `strings.ReplaceAll(s, pat, rep)` (non-overlapping,
left-to-right), written with explicit fuel so that the definition is
structurally recursive and kernel-computable.  Each step consumes at least
one character of `s`, so `fuel = s.length` (as used by `replaceAll`) never
runs out; the `0` branch is unreachable from `replaceAll`.  Go's special
behaviour for an empty pattern (inserting `rep` between runes) is not
exercised by this program — every call site passes a non-empty pattern —
and the guard `pat ≠ []` makes the empty-pattern case the identity here. -/
def replaceLoop (pat rep : List Char) : Nat → List Char → List Char
  | _, [] => []
  | 0, s => s
  | fuel + 1, c :: rest =>
    if pat.isPrefixOf (c :: rest) ∧ pat ≠ [] then
      rep ++ replaceLoop pat rep fuel (rest.drop (pat.length - 1))
    else
      c :: replaceLoop pat rep fuel rest

/-- Go's `strings.ReplaceAll(s, pat, rep)`. -/
def replaceAll (pat rep s : List Char) : List Char :=
  replaceLoop pat rep s.length s

/-- Go's `strings.Contains(s, pat)` (as a contiguous-substring test). -/
def containsSub (pat : List Char) : List Char → Bool
  | [] => pat.isEmpty
  | c :: rest => pat.isPrefixOf (c :: rest) || containsSub pat rest

/-! ## `strconv.Quote`

`unescapeUnicodeJSON` in `main.go` builds `{"content": strconv.Quote(s)}` and
feeds it to `json.Unmarshal`.  We model `strconv.Quote` rune by rune.  Go
keeps printable runes literal and escapes the rest; the printability table
beyond ASCII is modelled conservatively, escaping every rune ≥ U+0080 (`\u`
for BMP runes, `\U` for the rest).  This choice does not change any
observable of `cleanupContent`: a `\uXXXX` escape of a valid scalar decodes
back to the same rune, and a `\U` escape makes `json.Unmarshal` fail, in
which case `unescapeUnicodeJSON` returns its input unchanged — the same
result Go reaches by keeping the printable rune literal. -/

/-- Lower-case hexadecimal digit for `n < 16`. -/
def hexDig (n : Nat) : Char :=
  if n < 10 then Char.ofNat (48 + n) else Char.ofNat (87 + n)

/-- The escape sequence `strconv.Quote` emits for one rune (without the
surrounding quotes). -/
def escChar (c : Char) : List Char :=
  let v := c.toNat
  if c = '"' then ['\\', '"']
  else if c = '\\' then ['\\', '\\']
  else if c = '\n' then ['\\', 'n']
  else if c = '\t' then ['\\', 't']
  else if c = '\r' then ['\\', 'r']
  else if v = 7 then ['\\', 'a']
  else if v = 8 then ['\\', 'b']
  else if v = 11 then ['\\', 'v']
  else if v = 12 then ['\\', 'f']
  else if 32 ≤ v ∧ v < 127 then [c]
  else if v < 128 then ['\\', 'x', hexDig (v / 16), hexDig (v % 16)]
  else if v < 65536 then
    ['\\', 'u', hexDig (v / 4096), hexDig (v / 256 % 16),
     hexDig (v / 16 % 16), hexDig (v % 16)]
  else
    ['\\', 'U', '0', '0', hexDig (v / 1048576 % 16), hexDig (v / 65536 % 16),
     hexDig (v / 4096 % 16), hexDig (v / 256 % 16), hexDig (v / 16 % 16),
     hexDig (v % 16)]

/-- `strconv.Quote`: a double-quoted, escaped form of `s`. -/
def goQuote (s : List Char) : List Char :=
  '"' :: (s.map escChar).flatten ++ ['"']

/-! ## JSON string decoding (`encoding/json` on a string literal)

`json.Unmarshal` of `{"content": Q}` succeeds exactly when `Q` is a valid
JSON string literal; the decoded value is the unescaped body.  We model the
decoder on the quoted literal itself.  Surrogate handling follows Go's
decoder: a `\uXXXX` high surrogate followed by a `\uXXXX` low surrogate
combines into one rune; a lone or ill-paired surrogate escape becomes
U+FFFD. -/

/-- Numeric value of one hexadecimal digit (either case), if any. -/
def hexVal (c : Char) : Option Nat :=
  if 48 ≤ c.toNat ∧ c.toNat ≤ 57 then some (c.toNat - 48)
  else if 97 ≤ c.toNat ∧ c.toNat ≤ 102 then some (c.toNat - 87)
  else if 65 ≤ c.toNat ∧ c.toNat ≤ 70 then some (c.toNat - 55)
  else none

/-- Value of four hexadecimal digits, if all four parse. -/
def hex4 (a b c d : Char) : Option Nat :=
  match hexVal a, hexVal b, hexVal c, hexVal d with
  | some x, some y, some z, some w => some (x * 4096 + y * 256 + z * 16 + w)
  | _, _, _, _ => none

/-- Decode the body of a JSON string literal: everything after the opening
quote, up to and including the closing quote, which must end the input.
Written with explicit fuel so the definition is structurally recursive and
kernel-computable; every recursive call consumes at least one input
character, so `fuel = input length` (as used by `jsonUnquote`) never runs
out and the `0` branch is unreachable from `jsonUnquote`. -/
def jsonStrBody : Nat → List Char → Option (List Char)
  | 0, _ => none
  | fuel + 1, s =>
    match s with
    | [] => none
    | c :: rest =>
    if c = '"' then
      if rest.isEmpty then some [] else none
    else if c = '\\' then
      match rest with
      | [] => none
      | e :: rest2 =>
        if e = '"' then (jsonStrBody fuel rest2).map (fun r => '"' :: r)
        else if e = '\\' then (jsonStrBody fuel rest2).map (fun r => '\\' :: r)
        else if e = '/' then (jsonStrBody fuel rest2).map (fun r => '/' :: r)
        else if e = 'b' then (jsonStrBody fuel rest2).map (fun r => Char.ofNat 8 :: r)
        else if e = 'f' then (jsonStrBody fuel rest2).map (fun r => Char.ofNat 12 :: r)
        else if e = 'n' then (jsonStrBody fuel rest2).map (fun r => '\n' :: r)
        else if e = 'r' then (jsonStrBody fuel rest2).map (fun r => '\r' :: r)
        else if e = 't' then (jsonStrBody fuel rest2).map (fun r => '\t' :: r)
        else if e = 'u' then
          match rest2 with
          | h1 :: h2 :: h3 :: h4 :: rest3 =>
            match hex4 h1 h2 h3 h4 with
            | none => none
            | some v =>
              if v < 55296 ∨ 57343 < v then
                (jsonStrBody fuel rest3).map (fun r => Char.ofNat v :: r)
              else if v < 56320 then
                match rest3 with
                | b1 :: b2 :: g1 :: g2 :: g3 :: g4 :: rest4 =>
                  if b1 = '\\' ∧ b2 = 'u' then
                    match hex4 g1 g2 g3 g4 with
                    | some w =>
                      if 56320 ≤ w ∧ w ≤ 57343 then
                        (jsonStrBody fuel rest4).map
                          (fun r => Char.ofNat (65536 + (v - 55296) * 1024 + (w - 56320)) :: r)
                      else (jsonStrBody fuel rest3).map (fun r => Char.ofNat 65533 :: r)
                    | none => (jsonStrBody fuel rest3).map (fun r => Char.ofNat 65533 :: r)
                  else (jsonStrBody fuel rest3).map (fun r => Char.ofNat 65533 :: r)
                | _ => (jsonStrBody fuel rest3).map (fun r => Char.ofNat 65533 :: r)
              else (jsonStrBody fuel rest3).map (fun r => Char.ofNat 65533 :: r)
          | _ => none
        else none
    else if c.toNat < 32 then none
    else (jsonStrBody fuel rest).map (fun r => c :: r)

/-- Decode a complete JSON string literal (opening quote, body, closing
quote, nothing after). -/
def jsonUnquote (s : List Char) : Option (List Char) :=
  match s with
  | '"' :: rest => jsonStrBody rest.length rest
  | _ => none

/-! ## The content pipeline of `main.go` -/

/-- `unescapeUnicodeJSON` from `main.go`: wrap the content with
`strconv.Quote` inside a fixed JSON object and unmarshal it.  The fixed
object wrapper always parses, so unmarshalling succeeds exactly when the
quoted literal is a valid JSON string.  Returns the decoded content and
`true`, or — mirroring Go's `return s, err` — the input unchanged and
`false`. -/
def unescapeUnicodeJSON (s : List Char) : List Char × Bool :=
  match jsonUnquote (goQuote s) with
  | some r => (r, true)
  | none => (s, false)

/-- The fixed HTML-entity table of `cleanupContent`, in the source's textual
order.  (`main.go` stores it in a Go `map`, whose iteration order is
unspecified; the embedding fixes the textual order.  The claims settled
below are insensitive to this order.) -/
def htmlReplacements : List (List Char × List Char) :=
  [(str "&nbsp;", str " "), (str "&amp;", str "&"), (str "&lt;", str "<"),
   (str "&gt;", str ">"), (str "&quot;", str "\""), (str "&#39;", str "'"),
   (str "&apos;", str "'")]

/-- Apply every entry of the entity table with `strings.ReplaceAll`. -/
def applyEntities (s : List Char) : List Char :=
  htmlReplacements.foldl (fun acc p => replaceAll p.1 p.2 acc) s

/-- `cleanupContent` from `main.go`: strip one surrounding quote pair (when
length > 2 and both ends are `"`), replace `\"` by `"`, run the best-effort
JSON unescape (on failure the content is kept, which is also what the
failure path of `unescapeUnicodeJSON` returns), then replace the HTML
entities. -/
def cleanupContent (content : List Char) : List Char :=
  let c1 :=
    if content.length > 2 ∧ content.head? = some '"' ∧ content.getLast? = some '"'
    then (content.drop 1).dropLast else content
  let c2 := replaceAll (str "\\\"") (str "\"") c1
  let c3 := (unescapeUnicodeJSON c2).1
  applyEntities c3

/-! ## `stripHTMLTags` -/

/-- The character scan of `stripHTMLTags`: drop everything between `<` and
`>`, writing a single space for each `>`. -/
def stripTags (inTag : Bool) : List Char → List Char
  | [] => []
  | c :: rest =>
    if c = '<' then stripTags true rest
    else if c = '>' then ' ' :: stripTags false rest
    else if inTag then stripTags inTag rest
    else c :: stripTags inTag rest

/-- The `for strings.Contains(text, "  ")` loop of `stripHTMLTags`, with
fuel: each iteration strictly shortens the string (a two-space occurrence is
replaced by one space), so `fuel = s.length` iterations always suffice. -/
def collapseLoop : Nat → List Char → List Char
  | 0, s => s
  | fuel + 1, s =>
    if containsSub (str "  ") s then
      collapseLoop fuel (replaceAll (str "  ") (str " ") s)
    else s

/-- Replace runs of two spaces until none remain. -/
def collapseSpaces (s : List Char) : List Char :=
  collapseLoop s.length s

/-- Go's `unicode.IsSpace` (the Unicode `White_Space` property), used by
`strings.TrimSpace`. -/
def isGoSpace (c : Char) : Bool :=
  let v := c.toNat
  (9 ≤ v ∧ v ≤ 13) ∨ v = 32 ∨ v = 133 ∨ v = 160 ∨ v = 5760 ∨
    (8192 ≤ v ∧ v ≤ 8202) ∨ v = 8232 ∨ v = 8233 ∨ v = 8239 ∨ v = 8287 ∨
    v = 12288

/-- Go's `strings.TrimSpace`. -/
def trimSpace (s : List Char) : List Char :=
  ((s.dropWhile isGoSpace).reverse.dropWhile isGoSpace).reverse

/-- `stripHTMLTags` from `main.go`: tag scan, `&nbsp;` → space, one pass of
`"\n\n"` → `"\n"`, collapse double spaces, trim. -/
def stripHTMLTags (html : List Char) : List Char :=
  let text := stripTags false html
  let text := replaceAll (str "&nbsp;") (str " ") text
  let text := replaceAll (str "\n\n") (str "\n") text
  let text := collapseSpaces text
  trimSpace text

/-! ## Byte length (Go `len` on a string) -/

/-- Number of bytes of the UTF-8 encoding of one rune. -/
def utf8CharLen (c : Char) : Nat :=
  if c.toNat < 128 then 1
  else if c.toNat < 2048 then 2
  else if c.toNat < 65536 then 3
  else 4

/-- Go's `len` on a string: the number of bytes of its UTF-8 encoding. -/
def utf8Len (s : List Char) : Nat :=
  (s.map utf8CharLen).sum

/-! ## The Token Manager

`TokenManager` holds the shared credential.  `RefreshToken` and `GetToken`
are modelled sequentially (one call at a time); the upstream's answer to the
token request is passed in as a `RefreshResp`, and "now" as a second
parameter (Go reads `time.Now()` during the call). -/

/-- The mutable state of `TokenManager` (`networkDomain` is fixed at
construction and never read by the token logic, which hardcodes the query's
domain; the `sync.RWMutex` has no sequential content). -/
structure TokenManager where
  accessToken : List Char
  expiry : Nat
  networkDomain : List Char
  deriving DecidableEq, Repr

/-- What the environment does with one token-endpoint request.  The error
payloads carry the underlying error text that Go wraps. -/
inductive RefreshResp where
  /-- `client.Do` fails. -/
  | netErr (e : List Char)
  /-- `io.ReadAll` fails. -/
  | readErr (e : List Char)
  /-- `json.Unmarshal` fails. -/
  | parseErr (e : List Char)
  /-- The response parses; `accessToken` is the decoded
  `data.tokens.accessToken` field (empty when absent). -/
  | parsed (accessToken : List Char)
  deriving DecidableEq, Repr

/-- `TokenManager.RefreshToken` from `main.go`: contact the token endpoint;
on any failure return a descriptive error leaving the state alone; otherwise
store the token and an expiry 24 hours from now.  Returns the new state and
`some errorMessage` or `none`. -/
def RefreshToken (tm : TokenManager) (now : Nat) (resp : RefreshResp) :
    TokenManager × Option (List Char) :=
  match resp with
  | .netErr e => (tm, some (str "error sending token request: " ++ e))
  | .readErr e => (tm, some (str "error reading token response: " ++ e))
  | .parseErr e => (tm, some (str "error parsing token response: " ++ e))
  | .parsed t =>
    if t = [] then (tm, some (str "no token returned from API"))
    else ({ tm with accessToken := t, expiry := now + 86400 }, none)

/-- `TokenManager.GetToken` from `main.go`, sequentially: if the token is
empty or `now + 5 minutes` is strictly after the recorded expiry, refresh
first (the refresh outcome is the environment's `resp`); an error from the
refresh is returned as is; otherwise the (possibly new) stored token is
returned. -/
def GetToken (tm : TokenManager) (now : Nat) (resp : RefreshResp) :
    TokenManager × Except (List Char) (List Char) :=
  if tm.accessToken = [] ∨ tm.expiry < now + 5 * 60 then
    match RefreshToken tm now resp with
    | (tm2, some e) => (tm2, .error e)
    | (tm2, none) => (tm2, .ok tm2.accessToken)
  else
    (tm, .ok tm.accessToken)

/-! ## The upstream content fetch

`fetchContentFromBetterMode` issues a GraphQL post query, retrying after a
refresh whenever the upstream answers 401.  Each (recursive) attempt is an
interaction with the environment; the environment's behaviour is a finite
trace of `Attempt`s, consumed front to back.  The Go recursion has no bound
of its own; an empty remaining trace (which Go cannot observe — the network
always answers something) is reported as an error so that the model is
total on finite traces. -/

/-- One `key/type/value` mapping field of the post response. -/
structure MappingField where
  key : List Char
  type : List Char
  value : List Char
  deriving DecidableEq, Repr

/-- The decoded `data.post` object. -/
structure PostData where
  mappingFields : List MappingField
  title : List Char
  deriving DecidableEq, Repr

/-- What the environment does with one content request. -/
inductive Upstream where
  /-- `client.Do` fails. -/
  | netErr (e : List Char)
  /-- Status 401; the nested `RefreshToken` outcome is the environment's
  answer to the forced refresh that follows. -/
  | unauthorized (refresh : Except (List Char) Unit)
  /-- Any other status; the payload is the read-and-parse outcome of the
  body (`error` carries the full wrapped read/parse error message). -/
  | ok (body : Except (List Char) PostData)
  deriving Repr

/-- One attempt of the fetch: the `GetToken` outcome, then the upstream's
response. -/
structure Attempt where
  tokenRes : Except (List Char) (List Char)
  upstream : Upstream
  deriving Repr

/-- The first `mappingFields` value whose key is `content` (Go's loop with
`break`), or `""` when none matches. -/
def findContent : List MappingField → List Char
  | [] => []
  | f :: rest => if f.key = str "content" then f.value else findContent rest

/-- `fetchContentFromBetterMode` from `main.go`, over a trace of attempts.
Returns `(content, title)` on success.  (Go also returns the title next to
the `content field not found` error; the caller only consumes the error
message in that case, so the model keeps the message alone.) -/
def fetchContentFromBetterMode : List Attempt → Except (List Char) (List Char × List Char)
  | [] => .error (str "trace exhausted")
  | a :: rest =>
    match a.tokenRes with
    | .error e => .error (str "error getting access token: " ++ e)
    | .ok _ =>
      match a.upstream with
      | .netErr e => .error (str "error sending request: " ++ e)
      | .unauthorized r =>
        match r with
        | .error e => .error (str "failed to refresh token: " ++ e)
        | .ok _ => fetchContentFromBetterMode rest
      | .ok (.error e) => .error e
      | .ok (.ok pd) =>
        let content := findContent pd.mappingFields
        if content = [] then .error (str "content field not found")
        else .ok (content, pd.title)

/-! ## The `POST /content` handler -/

/-- The decoded request body: `invalid` when `json.Decode` fails, otherwise
the two fields (absent JSON fields decode to `""`). -/
inductive ReqBody where
  | invalid
  | valid (postID : List Char) (format : List Char)
  deriving Repr

/-- The `ContentResponse` JSON payload of `main.go`. -/
structure ContentResponse where
  content : List Char
  format : List Char
  postID : List Char
  title : List Char
  charCount : Nat
  deriving DecidableEq, Repr

/-- What the handler writes: `http.Error` with 400 or 500, or a 200 JSON
body. -/
inductive HandlerResult where
  | badRequest (msg : List Char)
  | serverError (msg : List Char)
  | okJSON (resp : ContentResponse)
  deriving DecidableEq, Repr

/-- `getContent` from `main.go`: decode and validate the body (empty
`post_id` and unknown formats are rejected before any upstream call, the
empty format defaults to `html`), fetch (the fetch outcome is the
environment's `fetchResult`), clean up, optionally strip tags, and answer
with the processed content and its `len` (UTF-8 byte count). -/
def getContent (body : ReqBody) (fetchResult : Except (List Char) (List Char × List Char)) :
    HandlerResult :=
  match body with
  | .invalid => .badRequest (str "Invalid request body")
  | .valid postID format =>
    if postID = [] then .badRequest (str "Post ID is required")
    else
      let format := if format = [] then str "html" else format
      if format ≠ str "html" ∧ format ≠ str "text" then
        .badRequest (str "Format must be 'html' or 'text'")
      else
        match fetchResult with
        | .error e => .serverError (str "Error fetching content: " ++ e)
        | .ok (content, title) =>
          let processed := cleanupContent content
          let processed := if format = str "text" then stripHTMLTags processed else processed
          .okJSON ⟨processed, format, postID, title, utf8Len processed⟩

example : stripHTMLTags (str "<p>Hello <b>World</b></p>") = str "Hello World" := by decide
example : cleanupContent (str "\\u0041&amp;") = str "\\u0041&" := by decide
example : cleanupContent (str "&amp;amp;") = str "&amp;" := by decide
example : cleanupContent (str "&amp;") = str "&" := by decide
example : cleanupContent (str "한") = str "한" := by decide
example :
    getContent (.valid (str "p") (str "html")) (.ok (str "한", str "t")) =
      .okJSON ⟨str "한", str "html", str "p", str "t", 3⟩ := by decide

/-! ## Claim theorems -/

/-- C8: `stripHTMLTags` applied to `"<p>Hello <b>World</b></p>"` returns
exactly `"Hello World"` — tags removed, interior space runs collapsed to a
single space, ends trimmed. -/
theorem c8_stripHTMLTags_hello_world :
    stripHTMLTags (str "<p>Hello <b>World</b></p>") = str "Hello World" := by
  decide

/-- C4: evaluation of the html pipeline at a content value containing the
six-character escape `A` and the entity `&amp;`.  The entity half
normalizes to `&` as claimed, but `A` survives unchanged: the claimed
normalization to `A` never happens, because `unescapeUnicodeJSON` re-quotes
the content with `strconv.Quote` (escaping the backslash) before
unmarshalling, so the decode merely undoes the quoting.  The result differs
from the claimed `A&`. -/
theorem c4_unicode_escape_not_decoded :
    cleanupContent (str "\\u0041&amp;") = str "\\u0041&" ∧
      cleanupContent (str "\\u0041&amp;") ≠ str "A&" := by
  decide

/-- C1 counterexample: a trace in which the upstream answers 401 twice (each
refresh succeeding) and then succeeds.  The fetch returns the content of the
third attempt — after a second authorization failure the code refreshes and
retries again instead of propagating an error, contradicting the claim's
"a second authorization failure propagates as an error". -/
theorem c1_counterexample_two_unauthorized_then_success :
    fetchContentFromBetterMode
        [⟨.ok (str "tok1"), .unauthorized (.ok ())⟩,
         ⟨.ok (str "tok2"), .unauthorized (.ok ())⟩,
         ⟨.ok (str "tok3"),
          .ok (.ok ⟨[⟨str "content", str "html", str "body"⟩], str "title"⟩)⟩] =
      .ok (str "body", str "title") := by
  rfl

/-- C1 (amended): on every authorization failure the fetch forces one
`RefreshToken`; a refresh failure propagates as an error, and a refresh
success retries the entire fetch — with no bound on the number of such
retries (the recursion is restarted on each 401, it is not a one-shot). -/
theorem c1_unauthorized_refresh_and_retry (tok e : List Char) (rest : List Attempt) :
    fetchContentFromBetterMode (⟨.ok tok, .unauthorized (.error e)⟩ :: rest) =
        .error (str "failed to refresh token: " ++ e) ∧
      fetchContentFromBetterMode (⟨.ok tok, .unauthorized (.ok ())⟩ :: rest) =
        fetchContentFromBetterMode rest := by
  exact ⟨rfl, rfl⟩

/-- C3: whenever `RefreshToken` returns an error — network failure,
unreadable body, malformed JSON, or an empty token field — the stored
credential (token and expiry both) is exactly what it was before the call. -/
theorem c3_RefreshToken_failure_preserves_credential (tm : TokenManager) (now : Nat)
    (resp : RefreshResp) (e : List Char)
    (h : (RefreshToken tm now resp).2 = some e) :
    (RefreshToken tm now resp).1 = tm := by
  cases resp with
  | netErr e => rfl
  | readErr e => rfl
  | parseErr e => rfl
  | parsed t =>
    by_cases ht : t = []
    · simp [RefreshToken, ht]
    · simp [RefreshToken, ht] at h

/-- Witness for C3 at a concrete failing refresh. -/
theorem c3_witness :
    (RefreshToken ⟨str "old", 100, str "www.gpters.org"⟩ 0
        (.netErr (str "connection refused"))).1 =
      ⟨str "old", 100, str "www.gpters.org"⟩ :=
  c3_RefreshToken_failure_preserves_credential _ 0 _
    (str "error sending token request: connection refused") rfl

/-- C2 counterexample: with the stored expiry exactly 5 minutes from now
(`now = 0`, `expiry = 300`), the recorded expiry is *not* more than 5
minutes after now, so the claim requires a refresh before returning — but
`GetToken` returns the stored token unchanged and ignores the fresh token
the environment would have supplied (`time.Now().Add(5*time.Minute).After`
is strict). -/
theorem c2_counterexample_boundary :
    ¬ (0 + 5 * 60 < (300 : Nat)) ∧
      GetToken ⟨str "tok", 300, str "www.gpters.org"⟩ 0 (.parsed (str "newtok")) =
        (⟨str "tok", 300, str "www.gpters.org"⟩, .ok (str "tok")) := by
  exact ⟨by omega, rfl⟩

/-- C2 (amended): `GetToken` returns the stored token unchanged when it is
non-empty and its recorded expiry is *at least* 5 minutes after now
(strictly-more-than is not required: at the exact boundary the token is
kept); otherwise it refreshes first, returning an error exactly when the
refresh fails; and every token it returns is non-empty with the final
recorded expiry at least 5 minutes after now. -/
theorem c2_GetToken_spec (tm : TokenManager) (now : Nat) (resp : RefreshResp) :
    (tm.accessToken ≠ [] → now + 5 * 60 ≤ tm.expiry →
        GetToken tm now resp = (tm, .ok tm.accessToken)) ∧
      ((tm.accessToken = [] ∨ tm.expiry < now + 5 * 60) →
        (∀ e, (RefreshToken tm now resp).2 = some e →
            GetToken tm now resp = ((RefreshToken tm now resp).1, .error e)) ∧
          ((RefreshToken tm now resp).2 = none →
            GetToken tm now resp =
              ((RefreshToken tm now resp).1, .ok (RefreshToken tm now resp).1.accessToken))) ∧
      (∀ tm2 t, GetToken tm now resp = (tm2, .ok t) →
        t ≠ [] ∧ t = tm2.accessToken ∧ now + 5 * 60 ≤ tm2.expiry) := by
  refine ⟨?_, ?_, ?_⟩
  · intro hne hexp
    have hcond : ¬ (tm.accessToken = [] ∨ tm.expiry < now + 5 * 60) := by
      push_neg
      exact ⟨hne, by omega⟩
    simp [GetToken, hcond]
  · intro hcond
    constructor
    · intro e he
      cases resp with
      | netErr x =>
        simp only [RefreshToken, Option.some.injEq] at he
        subst he
        simp [GetToken, if_pos hcond, RefreshToken]
      | readErr x =>
        simp only [RefreshToken, Option.some.injEq] at he
        subst he
        simp [GetToken, if_pos hcond, RefreshToken]
      | parseErr x =>
        simp only [RefreshToken, Option.some.injEq] at he
        subst he
        simp [GetToken, if_pos hcond, RefreshToken]
      | parsed tk =>
        by_cases ht : tk = []
        · simp only [RefreshToken, if_pos ht, Option.some.injEq] at he
          subst he
          simp [GetToken, if_pos hcond, RefreshToken, ht]
        · simp [RefreshToken, if_neg ht] at he
    · intro he
      cases resp with
      | netErr x => simp [RefreshToken] at he
      | readErr x => simp [RefreshToken] at he
      | parseErr x => simp [RefreshToken] at he
      | parsed tk =>
        by_cases ht : tk = []
        · simp [RefreshToken, if_pos ht] at he
        · simp [GetToken, if_pos hcond, RefreshToken, if_neg ht]
  · intro tm2 t hok
    by_cases hcond : tm.accessToken = [] ∨ tm.expiry < now + 5 * 60
    · rw [GetToken, if_pos hcond] at hok
      cases resp with
      | netErr x => simp [RefreshToken] at hok
      | readErr x => simp [RefreshToken] at hok
      | parseErr x => simp [RefreshToken] at hok
      | parsed tk =>
        by_cases ht : tk = []
        · simp [RefreshToken, if_pos ht] at hok
        · simp only [RefreshToken, if_neg ht] at hok
          rw [Prod.mk.injEq] at hok
          obtain ⟨h1, h2⟩ := hok
          injection h2 with h2
          subst h1
          subst h2
          exact ⟨ht, rfl, by simp⟩
    · rw [GetToken, if_neg hcond] at hok
      push_neg at hcond
      rw [Prod.mk.injEq] at hok
      obtain ⟨h1, h2⟩ := hok
      injection h2 with h2
      subst h1
      subst h2
      exact ⟨hcond.1, rfl, by omega⟩

/-- Witness for C2: at a fresh-enough credential the stored token is
returned unchanged. -/
theorem c2_witness :
    GetToken ⟨str "tok", 1000, str "www.gpters.org"⟩ 0 (.netErr (str "down")) =
      (⟨str "tok", 1000, str "www.gpters.org"⟩, .ok (str "tok")) :=
  (c2_GetToken_spec ⟨str "tok", 1000, str "www.gpters.org"⟩ 0
      (.netErr (str "down"))).1 (by decide) (by decide)

/-- C9: `getContent` rejects an empty `post_id` and an unknown format with a
400 before touching the upstream (the result does not depend on the fetch
outcome), treats an absent format as `html`, and turns any fetch error into
a 500 carrying the underlying message. -/
theorem c9_getContent_validation (postID format e : List Char)
    (f : Except (List Char) (List Char × List Char)) :
    (∀ g, getContent (.valid [] format) g = .badRequest (str "Post ID is required")) ∧
      (postID ≠ [] → format ≠ [] → format ≠ str "html" → format ≠ str "text" →
        ∀ g, getContent (.valid postID format) g =
          .badRequest (str "Format must be 'html' or 'text'")) ∧
      (getContent (.valid postID []) f = getContent (.valid postID (str "html")) f) ∧
      (postID ≠ [] → (format = [] ∨ format = str "html" ∨ format = str "text") →
        getContent (.valid postID format) (.error e) =
          .serverError (str "Error fetching content: " ++ e)) := by
  refine ⟨?_, ?_, ?_, ?_⟩
  · intro g
    simp [getContent]
  · intro hp hf hh ht g
    simp [getContent, hp, hf, hh, ht]
  · by_cases hp : postID = []
    · simp [getContent, hp]
    · simp [getContent, hp]
  · intro hp hf
    rcases hf with h | h | h <;> subst h <;> simp [getContent, hp, str]

/-- C7 counterexample: a successful request whose normalized content is the
single character `한` (3 UTF-8 bytes).  The handler reports `char_count = 3`
— Go's `len` counts bytes — while the number of characters of the
normalized content is 1. -/
theorem c7_counterexample_char_count_is_bytes :
    getContent (.valid (str "p") (str "html")) (.ok (str "한", str "t")) =
        .okJSON ⟨str "한", str "html", str "p", str "t", 3⟩ ∧
      (str "한").length = 1 ∧ (3 : Nat) ≠ 1 := by
  decide

/-- C7 (amended): for every successful `POST /content` request, the
`char_count` field of the response equals the UTF-8 *byte* length of the
normalized content string (Go's `len` on a string), which exceeds the
character count when the content has any rune above U+007F. -/
theorem c7_charCount_utf8_bytes (body : ReqBody)
    (f : Except (List Char) (List Char × List Char)) (resp : ContentResponse)
    (h : getContent body f = .okJSON resp) :
    resp.charCount = utf8Len resp.content := by
  cases body with
  | invalid => simp [getContent] at h
  | valid postID format =>
    by_cases hp : postID = []
    · simp [getContent, hp] at h
    · rw [getContent] at h
      simp only [if_neg hp] at h
      set fmt := if format = [] then str "html" else format with hfmt
      by_cases hok : fmt ≠ str "html" ∧ fmt ≠ str "text"
      · rw [if_pos hok] at h
        simp at h
      · rw [if_neg hok] at h
        cases f with
        | error e => simp at h
        | ok p =>
          obtain ⟨content, title⟩ := p
          simp only [HandlerResult.okJSON.injEq] at h
          subst h
          rfl

/-- Witness for C7 at a concrete successful request. -/
theorem c7_witness :
    (ContentResponse.mk (str "한") (str "html") (str "p") (str "t") 3).charCount =
      utf8Len (ContentResponse.mk (str "한") (str "html") (str "p") (str "t") 3).content :=
  c7_charCount_utf8_bytes (.valid (str "p") (str "html")) (.ok (str "한", str "t")) _
    (by decide)

/-- Witness for C9: a request with a valid post id but an unsupported
format is rejected regardless of the fetch outcome. -/
theorem c9_witness :
    getContent (.valid (str "p") (str "xml")) (.ok (str "c", str "t")) =
      .badRequest (str "Format must be 'html' or 'text'") :=
  (c9_getContent_validation (str "p") (str "xml") [] (.ok (str "c", str "t"))).2.1
    (by decide) (by decide) (by decide) (by decide) _

/-! ## Lemmas about the string machinery -/

/-- Every character of a `replaceLoop` result is a character of the
replacement or of the input. -/
theorem mem_replaceLoop (pat rep : List Char) :
    ∀ fuel s c, c ∈ replaceLoop pat rep fuel s → c ∈ rep ∨ c ∈ s := by
  intro fuel
  induction fuel with
  | zero =>
    intro s c hc
    cases s with
    | nil => simp [replaceLoop] at hc
    | cons a rest => exact Or.inr (by simpa [replaceLoop] using hc)
  | succ fuel ih =>
    intro s c hc
    cases s with
    | nil => simp [replaceLoop] at hc
    | cons a rest =>
      rw [replaceLoop] at hc
      split at hc
      · rcases List.mem_append.1 hc with h | h
        · exact Or.inl h
        · rcases ih _ _ h with h | h
          · exact Or.inl h
          · exact Or.inr (List.mem_cons_of_mem a (List.drop_subset _ rest h))
      · rcases List.mem_cons.1 hc with h | h
        · exact Or.inr (h ▸ List.mem_cons_self a rest)
        · rcases ih _ _ h with h | h
          · exact Or.inl h
          · exact Or.inr (List.mem_cons_of_mem a h)

/-- Every character of a `replaceAll` result is a character of the
replacement or of the input. -/
theorem mem_replaceAll {pat rep s : List Char} {c : Char}
    (hc : c ∈ replaceAll pat rep s) : c ∈ rep ∨ c ∈ s :=
  mem_replaceLoop pat rep s.length s c hc

/-- `replaceLoop` leaves a string without the pattern unchanged. -/
theorem replaceLoop_of_not_contains (pat rep : List Char) :
    ∀ fuel s, containsSub pat s = false → replaceLoop pat rep fuel s = s := by
  intro fuel
  induction fuel with
  | zero =>
    intro s hs
    cases s <;> rfl
  | succ fuel ih =>
    intro s hs
    cases s with
    | nil => rfl
    | cons a rest =>
      rw [containsSub, Bool.or_eq_false_iff] at hs
      rw [replaceLoop, if_neg (by simp [hs.1]), ih rest hs.2]

/-- `replaceAll` leaves a string without the pattern unchanged. -/
theorem replaceAll_of_not_contains {pat rep s : List Char}
    (hs : containsSub pat s = false) : replaceAll pat rep s = s :=
  replaceLoop_of_not_contains pat rep s.length s hs

/-- The empty pattern is contained in every string. -/
theorem containsSub_nil (s : List Char) : containsSub [] s = true := by
  cases s <;> simp [containsSub, List.isPrefixOf]

/-- A pattern contained in `t` is contained in `l ++ t`. -/
theorem containsSub_append_left (pat t : List Char) (l : List Char)
    (h : containsSub pat t = true) : containsSub pat (l ++ t) = true := by
  induction l with
  | nil => simpa using h
  | cons a l ih => simp [containsSub, ih]

/-- A Boolean prefix extends along an appended tail. -/
theorem isPrefixOf_append_of_isPrefixOf {pat t : List Char} (r : List Char)
    (h : pat.isPrefixOf t = true) : pat.isPrefixOf (t ++ r) = true := by
  rw [List.isPrefixOf_iff_prefix] at h ⊢
  exact h.trans (List.prefix_append t r)

/-- A pattern contained in `t` is contained in `t ++ r`. -/
theorem containsSub_append_right (pat : List Char) :
    ∀ t r, containsSub pat t = true → containsSub pat (t ++ r) = true := by
  intro t
  induction t with
  | nil =>
    intro r h
    simp only [containsSub, List.isEmpty_iff] at h
    subst h
    simpa using containsSub_nil r
  | cons a t ih =>
    intro r h
    rw [containsSub, Bool.or_eq_true] at h
    rcases h with h | h
    · have hp := isPrefixOf_append_of_isPrefixOf r h
      rw [List.cons_append] at hp
      rw [List.cons_append, containsSub, hp]
      simp
    · rw [List.cons_append, containsSub, ih r h]
      simp

/-- A pattern contained in an infix of `s` is contained in `s`. -/
theorem containsSub_of_part {pat t s : List Char}
    (ht : containsSub pat t = true) (hinf : t <:+: s) : containsSub pat s = true := by
  obtain ⟨u, v, rfl⟩ := hinf
  simpa [List.append_assoc] using
    containsSub_append_left pat (t ++ v) u (containsSub_append_right pat t v ht)

/-- An infix of a string without the pattern is itself without the
pattern. -/
theorem not_containsSub_of_part {pat t s : List Char}
    (hs : containsSub pat s = false) (hinf : t <:+: s) : containsSub pat t = false := by
  by_contra h
  rw [Bool.not_eq_false] at h
  rw [containsSub_of_part h hinf] at hs
  cases hs

/-- The two-space pattern only prefixes a list whose tail is non-empty. -/
theorem tail_ne_nil_of_two_space_prefix {a : Char} {rest : List Char}
    (h : (str "  ").isPrefixOf (a :: rest) = true) : rest ≠ [] := by
  cases rest with
  | nil => simp [str, List.isPrefixOf] at h
  | cons b bs => exact fun hc => List.noConfusion hc

/-- Collapsing two spaces into one never lengthens the string. -/
theorem replaceLoop_two_space_length_le :
    ∀ fuel s, (replaceLoop (str "  ") (str " ") fuel s).length ≤ s.length := by
  intro fuel
  induction fuel with
  | zero =>
    intro s
    cases s <;> simp [replaceLoop]
  | succ fuel ih =>
    intro s
    cases s with
    | nil => simp [replaceLoop]
    | cons a rest =>
      rw [replaceLoop]
      split
      · next h =>
        have hne := tail_ne_nil_of_two_space_prefix h.1
        have e1 : (str "  ").length - 1 = 1 := rfl
        rw [e1, List.length_append, List.length_cons]
        have e2 : (str " ").length = 1 := rfl
        rw [e2]
        have hlen := ih (rest.drop 1)
        have hdrop : (rest.drop 1).length = rest.length - 1 := by simp
        have hrest : rest.length ≠ 0 := fun hz => hne (List.eq_nil_of_length_eq_zero hz)
        omega
      · simpa [List.length_cons] using ih rest

/-- Collapsing two spaces into one strictly shortens a string containing
them (with fuel at least the string length, as `replaceAll` supplies). -/
theorem replaceLoop_two_space_length_lt :
    ∀ fuel s, s.length ≤ fuel → containsSub (str "  ") s = true →
      (replaceLoop (str "  ") (str " ") fuel s).length < s.length := by
  intro fuel
  induction fuel with
  | zero =>
    intro s hf hs
    rw [List.length_eq_zero.1 (Nat.le_zero.1 hf)] at hs
    simp [str, containsSub] at hs
  | succ fuel ih =>
    intro s hf hs
    cases s with
    | nil => simp [str, containsSub] at hs
    | cons a rest =>
      rw [replaceLoop]
      split
      · next h =>
        have hne := tail_ne_nil_of_two_space_prefix h.1
        have e1 : (str "  ").length - 1 = 1 := rfl
        rw [e1, List.length_append, List.length_cons]
        have e2 : (str " ").length = 1 := rfl
        rw [e2]
        have hlen := replaceLoop_two_space_length_le fuel (rest.drop 1)
        have hdrop : (rest.drop 1).length = rest.length - 1 := by simp
        have hrest : rest.length ≠ 0 := fun hz => hne (List.eq_nil_of_length_eq_zero hz)
        omega
      · next h =>
        rw [containsSub, Bool.or_eq_true] at hs
        rcases hs with hs | hs
        · exact absurd ⟨hs, by simp [str]⟩ h
        · have hf2 : rest.length ≤ fuel := by
            have := hf
            simp only [List.length_cons] at this
            omega
          simpa [List.length_cons] using ih rest hf2 hs

/-- `replaceAll` on the two-space pattern strictly shortens a string that
contains it. -/
theorem replaceAll_two_space_length_lt {s : List Char}
    (hs : containsSub (str "  ") s = true) :
    (replaceAll (str "  ") (str " ") s).length < s.length :=
  replaceLoop_two_space_length_lt s.length s le_rfl hs

/-- After the collapse loop (with enough fuel) no two-space run remains. -/
theorem collapseLoop_no_two_space :
    ∀ fuel s, s.length ≤ fuel → containsSub (str "  ") (collapseLoop fuel s) = false := by
  intro fuel
  induction fuel with
  | zero =>
    intro s hf
    rw [List.length_eq_zero.1 (Nat.le_zero.1 hf)]
    rfl
  | succ fuel ih =>
    intro s hf
    rw [collapseLoop]
    split
    · next h =>
      refine ih _ ?_
      have := replaceAll_two_space_length_lt h
      omega
    · next h => exact Bool.not_eq_true _ ▸ (Bool.eq_false_iff.2 (fun hc => h hc))

/-- `collapseSpaces` leaves no two consecutive spaces. -/
theorem collapseSpaces_no_two_space (s : List Char) :
    containsSub (str "  ") (collapseSpaces s) = false :=
  collapseLoop_no_two_space s.length s le_rfl

/-- Every character of the collapse loop's result is a space or a character
of the input. -/
theorem mem_collapseLoop :
    ∀ fuel s c, c ∈ collapseLoop fuel s → c = ' ' ∨ c ∈ s := by
  intro fuel
  induction fuel with
  | zero => intro s c hc; exact Or.inr hc
  | succ fuel ih =>
    intro s c hc
    rw [collapseLoop] at hc
    split at hc
    · rcases ih _ _ hc with h | h
      · exact Or.inl h
      · rcases mem_replaceAll h with h | h
        · exact Or.inl (by simpa [str] using h)
        · exact Or.inr h
    · exact Or.inr hc

/-- Every character of `collapseSpaces s` is a space or a character of
`s`. -/
theorem mem_collapseSpaces {s : List Char} {c : Char} (hc : c ∈ collapseSpaces s) :
    c = ' ' ∨ c ∈ s :=
  mem_collapseLoop s.length s c hc

/-- Every character the tag scan emits is a space or a non-angle-bracket
character of the input. -/
theorem mem_stripTags :
    ∀ (s : List Char) (b : Bool) (c : Char), c ∈ stripTags b s →
      c = ' ' ∨ (c ∈ s ∧ c ≠ '<' ∧ c ≠ '>') := by
  intro s
  induction s with
  | nil => intro b c hc; simp [stripTags] at hc
  | cons a rest ih =>
    intro b c hc
    rw [stripTags] at hc
    by_cases h1 : a = '<'
    · rw [if_pos h1] at hc
      rcases ih _ _ hc with h | ⟨hm, hlt, hgt⟩
      · exact Or.inl h
      · exact Or.inr ⟨List.mem_cons_of_mem a hm, hlt, hgt⟩
    · rw [if_neg h1] at hc
      by_cases h2 : a = '>'
      · rw [if_pos h2] at hc
        rcases List.mem_cons.1 hc with h | h
        · exact Or.inl h
        · rcases ih _ _ h with h | ⟨hm, hlt, hgt⟩
          · exact Or.inl h
          · exact Or.inr ⟨List.mem_cons_of_mem a hm, hlt, hgt⟩
      · rw [if_neg h2] at hc
        by_cases h3 : b = true
        · rw [if_pos h3] at hc
          rcases ih _ _ hc with h | ⟨hm, hlt, hgt⟩
          · exact Or.inl h
          · exact Or.inr ⟨List.mem_cons_of_mem a hm, hlt, hgt⟩
        · rw [if_neg h3] at hc
          rcases List.mem_cons.1 hc with h | h
          · exact Or.inr ⟨h ▸ List.mem_cons_self a rest, h ▸ h1, h ▸ h2⟩
          · rcases ih _ _ h with h | ⟨hm, hlt, hgt⟩
            · exact Or.inl h
            · exact Or.inr ⟨List.mem_cons_of_mem a hm, hlt, hgt⟩

/-- The head of a `dropWhile` result does not satisfy the predicate. -/
theorem head_dropWhile_false (p : Char → Bool) :
    ∀ (s : List Char) (c : Char), (s.dropWhile p).head? = some c → p c = false := by
  intro s
  induction s with
  | nil => intro c hc; simp [List.dropWhile] at hc
  | cons a rest ih =>
    intro c hc
    cases h : p a with
    | true =>
      rw [List.dropWhile_cons_of_pos h] at hc
      exact ih c hc
    | false =>
      rw [List.dropWhile_cons_of_neg (by simp [h])] at hc
      simp only [List.head?_cons, Option.some.injEq] at hc
      subst hc
      exact h

/-- `trimSpace` output is an infix of its input. -/
theorem trimSpace_part_of_input (s : List Char) : trimSpace s <:+: s := by
  have h1 : s.dropWhile isGoSpace <:+ s := List.dropWhile_suffix isGoSpace
  have h2 : ((s.dropWhile isGoSpace).reverse.dropWhile isGoSpace).reverse <+:
      s.dropWhile isGoSpace := by
    rw [← List.reverse_suffix]
    simpa using List.dropWhile_suffix (l := (s.dropWhile isGoSpace).reverse) isGoSpace
  exact h2.isInfix.trans h1.isInfix

/-- The first character of `trimSpace s`, when any, is not whitespace. -/
theorem trimSpace_head_not_space {s : List Char} {c : Char}
    (hc : (trimSpace s).head? = some c) : isGoSpace c = false := by
  unfold trimSpace at hc
  set a := s.dropWhile isGoSpace with ha
  have hpre : (a.reverse.dropWhile isGoSpace).reverse <+: a := by
    rw [← List.reverse_suffix]
    simpa using List.dropWhile_suffix (l := a.reverse) isGoSpace
  obtain ⟨t, hts⟩ := hpre
  have hne : (a.reverse.dropWhile isGoSpace).reverse ≠ [] := by
    intro hnil
    rw [hnil] at hc
    simp at hc
  have : a.head? = some c := by
    rw [← hts]
    cases hh : (a.reverse.dropWhile isGoSpace).reverse with
    | nil => exact absurd hh hne
    | cons x xs =>
      rw [hh] at hc
      simp only [List.head?_cons, Option.some.injEq] at hc
      simp [hc]
  exact head_dropWhile_false isGoSpace s c this

/-- The last character of `trimSpace s`, when any, is not whitespace. -/
theorem trimSpace_last_not_space {s : List Char} {c : Char}
    (hc : (trimSpace s).getLast? = some c) : isGoSpace c = false := by
  unfold trimSpace at hc
  rw [List.getLast?_reverse] at hc
  exact head_dropWhile_false isGoSpace _ c hc

/-- C10: for every input, the output of `stripHTMLTags` contains no `<` and
no `>`, contains no two consecutive spaces, and has no leading or trailing
whitespace. -/
theorem c10_stripHTMLTags_normalized (s : List Char) :
    '<' ∉ stripHTMLTags s ∧ '>' ∉ stripHTMLTags s ∧
      containsSub (str "  ") (stripHTMLTags s) = false ∧
      (∀ c, (stripHTMLTags s).head? = some c → isGoSpace c = false) ∧
      (∀ c, (stripHTMLTags s).getLast? = some c → isGoSpace c = false) := by
  have hout : stripHTMLTags s =
      trimSpace (collapseSpaces (replaceAll (str "\n\n") (str "\n")
        (replaceAll (str "&nbsp;") (str " ") (stripTags false s)))) := rfl
  have hlt : ∀ c, c ∈ stripHTMLTags s → c ≠ '<' ∧ c ≠ '>' := by
    intro c hc
    rw [hout] at hc
    have hc4 := (trimSpace_part_of_input _).subset hc
    rcases mem_collapseSpaces hc4 with h | hc3
    · subst h
      exact ⟨by decide, by decide⟩
    rcases mem_replaceAll hc3 with h | hc2
    · have hn : c = '\n' := by simpa [str] using h
      subst hn
      exact ⟨by decide, by decide⟩
    rcases mem_replaceAll hc2 with h | hc1
    · have hsp : c = ' ' := by simpa [str] using h
      subst hsp
      exact ⟨by decide, by decide⟩
    rcases mem_stripTags s false c hc1 with h | ⟨_, h1, h2⟩
    · subst h
      exact ⟨by decide, by decide⟩
    · exact ⟨h1, h2⟩
  refine ⟨fun h => (hlt _ h).1 rfl, fun h => (hlt _ h).2 rfl, ?_, ?_, ?_⟩
  · rw [hout]
    exact not_containsSub_of_part (collapseSpaces_no_two_space _) (trimSpace_part_of_input _)
  · intro c hc
    rw [hout] at hc
    exact trimSpace_head_not_space hc
  · intro c hc
    rw [hout] at hc
    exact trimSpace_last_not_space hc

/-- Witness for C10 at a concrete input whose head and last characters the
theorem certifies as non-whitespace. -/
theorem c10_witness : isGoSpace 'H' = false ∧ isGoSpace 'd' = false :=
  ⟨(c10_stripHTMLTags_normalized (str "<p>Hello World</p>")).2.2.2.1 'H' (by decide),
   (c10_stripHTMLTags_normalized (str "<p>Hello World</p>")).2.2.2.2 'd' (by decide)⟩

/-! ## The JSON unescape step is the identity

`unescapeUnicodeJSON` quotes its input before decoding, so when the decode
succeeds it returns exactly the input (each emitted escape decodes back to
the rune it encoded), and when it fails the input is returned unchanged. -/

/-- `hexVal` inverts `hexDig` on one digit. -/
theorem hexVal_hexDig (n : Nat) (h : n < 16) : hexVal (hexDig n) = some n := by
  interval_cases n <;> decide

/-- `hex4` inverts the four-digit emission of `escChar`. -/
theorem hex4_hexDig (v : Nat) (h : v < 65536) :
    hex4 (hexDig (v / 4096)) (hexDig (v / 256 % 16)) (hexDig (v / 16 % 16))
      (hexDig (v % 16)) = some v := by
  rw [hex4, hexVal_hexDig (v / 4096) (by omega), hexVal_hexDig _ (by omega),
    hexVal_hexDig _ (by omega), hexVal_hexDig _ (by omega)]
  simp only [Option.some.injEq]
  omega

/-- A rune is never a UTF-16 surrogate value. -/
theorem char_not_surrogate (c : Char) : c.toNat < 55296 ∨ 57343 < c.toNat := by
  rcases c.valid with h | h
  · exact Or.inl h
  · exact Or.inr h.1

/-- Decoding step for an ordinary character. -/
theorem jsonStrBody_cons_plain (fuel : Nat) (c : Char) (tail : List Char)
    (hq : ¬ c = '"') (hb : ¬ c = '\\') (hge : ¬ c.toNat < 32) :
    jsonStrBody (fuel + 1) (c :: tail) = (jsonStrBody fuel tail).map (fun r => c :: r) := by
  simp only [jsonStrBody]
  rw [if_neg hq, if_neg hb, if_neg hge]

/-- Decoding step for the `\uXXXX` emission of a non-surrogate value. -/
theorem jsonStrBody_cons_unicode (fuel : Nat) (v : Nat) (tail : List Char)
    (hlt : v < 65536) (hsur : v < 55296 ∨ 57343 < v) :
    jsonStrBody (fuel + 1)
        ('\\' :: 'u' :: hexDig (v / 4096) :: hexDig (v / 256 % 16) ::
          hexDig (v / 16 % 16) :: hexDig (v % 16) :: tail) =
      (jsonStrBody fuel tail).map (fun r => Char.ofNat v :: r) := by
  simp only [jsonStrBody, hex4_hexDig v hlt]
  rw [if_pos hsur]
  simp

/-- Decoding step for `\"`. -/
theorem jsonStrBody_esc_quote (fuel : Nat) (tail : List Char) :
    jsonStrBody (fuel + 1) ('\\' :: '"' :: tail) =
      (jsonStrBody fuel tail).map (fun r => '"' :: r) := by
  simp [jsonStrBody]

/-- Decoding step for `\\`. -/
theorem jsonStrBody_esc_backslash (fuel : Nat) (tail : List Char) :
    jsonStrBody (fuel + 1) ('\\' :: '\\' :: tail) =
      (jsonStrBody fuel tail).map (fun r => '\\' :: r) := by
  simp [jsonStrBody]

/-- Decoding step for `\n`. -/
theorem jsonStrBody_esc_n (fuel : Nat) (tail : List Char) :
    jsonStrBody (fuel + 1) ('\\' :: 'n' :: tail) =
      (jsonStrBody fuel tail).map (fun r => '\n' :: r) := by
  simp [jsonStrBody]

/-- Decoding step for `\t`. -/
theorem jsonStrBody_esc_t (fuel : Nat) (tail : List Char) :
    jsonStrBody (fuel + 1) ('\\' :: 't' :: tail) =
      (jsonStrBody fuel tail).map (fun r => '\t' :: r) := by
  simp [jsonStrBody]

/-- Decoding step for `\r`. -/
theorem jsonStrBody_esc_r (fuel : Nat) (tail : List Char) :
    jsonStrBody (fuel + 1) ('\\' :: 'r' :: tail) =
      (jsonStrBody fuel tail).map (fun r => '\r' :: r) := by
  simp [jsonStrBody]

/-- Decoding step for `\b`. -/
theorem jsonStrBody_esc_b (fuel : Nat) (tail : List Char) :
    jsonStrBody (fuel + 1) ('\\' :: 'b' :: tail) =
      (jsonStrBody fuel tail).map (fun r => Char.ofNat 8 :: r) := by
  simp [jsonStrBody]

/-- Decoding step for `\f`. -/
theorem jsonStrBody_esc_f (fuel : Nat) (tail : List Char) :
    jsonStrBody (fuel + 1) ('\\' :: 'f' :: tail) =
      (jsonStrBody fuel tail).map (fun r => Char.ofNat 12 :: r) := by
  simp [jsonStrBody]

/-- `\a` is not a JSON escape: decoding fails. -/
theorem jsonStrBody_esc_a (fuel : Nat) (tail : List Char) :
    jsonStrBody (fuel + 1) ('\\' :: 'a' :: tail) = none := by
  simp [jsonStrBody]

/-- `\v` is not a JSON escape: decoding fails. -/
theorem jsonStrBody_esc_v (fuel : Nat) (tail : List Char) :
    jsonStrBody (fuel + 1) ('\\' :: 'v' :: tail) = none := by
  simp [jsonStrBody]

/-- `\x` is not a JSON escape: decoding fails. -/
theorem jsonStrBody_esc_x (fuel : Nat) (tail : List Char) :
    jsonStrBody (fuel + 1) ('\\' :: 'x' :: tail) = none := by
  simp [jsonStrBody]

/-- `\U` is not a JSON escape: decoding fails. -/
theorem jsonStrBody_esc_U (fuel : Nat) (tail : List Char) :
    jsonStrBody (fuel + 1) ('\\' :: 'U' :: tail) = none := by
  simp [jsonStrBody]

/-- `escChar` keeps a printable ASCII rune other than quote and backslash. -/
theorem escChar_plain {c : Char} (h1 : ¬ c = '"') (h2 : ¬ c = '\\')
    (h6 : 32 ≤ c.toNat) (h7 : c.toNat < 127) : escChar c = [c] := by
  have h3 : ¬ c = '\n' := fun h => by rw [h] at h6; exact absurd h6 (by decide)
  have h4 : ¬ c = '\t' := fun h => by rw [h] at h6; exact absurd h6 (by decide)
  have h5 : ¬ c = '\r' := fun h => by rw [h] at h6; exact absurd h6 (by decide)
  simp only [escChar]
  rw [if_neg h1, if_neg h2, if_neg h3, if_neg h4, if_neg h5, if_neg (by omega),
    if_neg (by omega), if_neg (by omega), if_neg (by omega), if_pos ⟨h6, h7⟩]

/-- `escChar` emits `\uXXXX` for a rune in `[0x80, 0x10000)` (in this
model). -/
theorem escChar_u {c : Char} (h6 : 128 ≤ c.toNat) (h7 : c.toNat < 65536) :
    escChar c =
      ['\\', 'u', hexDig (c.toNat / 4096), hexDig (c.toNat / 256 % 16),
       hexDig (c.toNat / 16 % 16), hexDig (c.toNat % 16)] := by
  have h1 : ¬ c = '"' := fun h => by rw [h] at h6; exact absurd h6 (by decide)
  have h2 : ¬ c = '\\' := fun h => by rw [h] at h6; exact absurd h6 (by decide)
  have h3 : ¬ c = '\n' := fun h => by rw [h] at h6; exact absurd h6 (by decide)
  have h4 : ¬ c = '\t' := fun h => by rw [h] at h6; exact absurd h6 (by decide)
  have h5 : ¬ c = '\r' := fun h => by rw [h] at h6; exact absurd h6 (by decide)
  simp only [escChar]
  rw [if_neg h1, if_neg h2, if_neg h3, if_neg h4, if_neg h5, if_neg (by omega),
    if_neg (by omega), if_neg (by omega), if_neg (by omega), if_neg (by omega),
    if_neg (by omega), if_pos h7]

/-- `escChar` emits `\U…` for a rune at or above `0x10000` (in this
model). -/
theorem escChar_U {c : Char} (h6 : 65536 ≤ c.toNat) :
    escChar c =
      ['\\', 'U', '0', '0', hexDig (c.toNat / 1048576 % 16),
       hexDig (c.toNat / 65536 % 16), hexDig (c.toNat / 4096 % 16),
       hexDig (c.toNat / 256 % 16), hexDig (c.toNat / 16 % 16),
       hexDig (c.toNat % 16)] := by
  have h1 : ¬ c = '"' := fun h => by rw [h] at h6; exact absurd h6 (by decide)
  have h2 : ¬ c = '\\' := fun h => by rw [h] at h6; exact absurd h6 (by decide)
  have h3 : ¬ c = '\n' := fun h => by rw [h] at h6; exact absurd h6 (by decide)
  have h4 : ¬ c = '\t' := fun h => by rw [h] at h6; exact absurd h6 (by decide)
  have h5 : ¬ c = '\r' := fun h => by rw [h] at h6; exact absurd h6 (by decide)
  simp only [escChar]
  rw [if_neg h1, if_neg h2, if_neg h3, if_neg h4, if_neg h5, if_neg (by omega),
    if_neg (by omega), if_neg (by omega), if_neg (by omega), if_neg (by omega),
    if_neg (by omega), if_neg (by omega)]

/-- `escChar` emits `\x…` for a non-printable ASCII rune other than the
named escapes. -/
theorem escChar_x {c : Char} (h1 : ¬ c = '\n') (h2 : ¬ c = '\t') (h3 : ¬ c = '\r')
    (hn7 : ¬ c.toNat = 7) (hn8 : ¬ c.toNat = 8) (hn11 : ¬ c.toNat = 11)
    (hn12 : ¬ c.toNat = 12) (hlt : c.toNat < 128)
    (hnp : ¬ (32 ≤ c.toNat ∧ c.toNat < 127)) :
    escChar c = ['\\', 'x', hexDig (c.toNat / 16), hexDig (c.toNat % 16)] := by
  have h0 : ¬ c = '"' := fun h => by
    rw [h] at hnp
    exact hnp (by decide)
  have hb : ¬ c = '\\' := fun h => by
    rw [h] at hnp
    exact hnp (by decide)
  simp only [escChar]
  rw [if_neg h0, if_neg hb, if_neg h1, if_neg h2, if_neg h3, if_neg hn7,
    if_neg hn8, if_neg hn11, if_neg hn12, if_neg hnp, if_pos hlt]

/-- Decoding the escaped body produced by `goQuote` (plus the closing
quote) can only yield the original string: every emitted escape decodes to
the rune that produced it, and the escapes JSON does not know (`\a`, `\v`,
`\x`, `\U`) make the whole decode fail. -/
theorem jsonStrBody_escBody :
    ∀ (s : List Char) (fuel : Nat) (r : List Char),
      jsonStrBody fuel ((s.map escChar).flatten ++ ['"']) = some r → r = s := by
  intro s
  induction s with
  | nil =>
    intro fuel r h
    cases fuel with
    | zero => exact absurd h (by simp [jsonStrBody])
    | succ fuel =>
      simp [jsonStrBody] at h
      exact h
  | cons c rest ih =>
    intro fuel r h
    have hsplit : ((c :: rest).map escChar).flatten ++ ['"'] =
        escChar c ++ ((rest.map escChar).flatten ++ ['"']) := by
      simp [List.append_assoc]
    rw [hsplit] at h
    cases fuel with
    | zero => exact absurd h (by simp [jsonStrBody])
    | succ fuel =>
      by_cases hq : c = '"'
      · subst hq
        simp only [show escChar '"' = ['\\', '"'] from rfl, List.cons_append,
          List.nil_append] at h
        rw [jsonStrBody_esc_quote, Option.map_eq_some'] at h
        obtain ⟨r1, hr1, hr2⟩ := h
        rw [← hr2, ih fuel r1 hr1]
      by_cases hb : c = '\\'
      · subst hb
        simp only [show escChar '\\' = ['\\', '\\'] from rfl, List.cons_append,
          List.nil_append] at h
        rw [jsonStrBody_esc_backslash, Option.map_eq_some'] at h
        obtain ⟨r1, hr1, hr2⟩ := h
        rw [← hr2, ih fuel r1 hr1]
      by_cases hn : c = '\n'
      · subst hn
        simp only [show escChar '\n' = ['\\', 'n'] from rfl, List.cons_append,
          List.nil_append] at h
        rw [jsonStrBody_esc_n, Option.map_eq_some'] at h
        obtain ⟨r1, hr1, hr2⟩ := h
        rw [← hr2, ih fuel r1 hr1]
      by_cases htb : c = '\t'
      · subst htb
        simp only [show escChar '\t' = ['\\', 't'] from rfl, List.cons_append,
          List.nil_append] at h
        rw [jsonStrBody_esc_t, Option.map_eq_some'] at h
        obtain ⟨r1, hr1, hr2⟩ := h
        rw [← hr2, ih fuel r1 hr1]
      by_cases hcr : c = '\r'
      · subst hcr
        simp only [show escChar '\r' = ['\\', 'r'] from rfl, List.cons_append,
          List.nil_append] at h
        rw [jsonStrBody_esc_r, Option.map_eq_some'] at h
        obtain ⟨r1, hr1, hr2⟩ := h
        rw [← hr2, ih fuel r1 hr1]
      by_cases h7 : c.toNat = 7
      · have hc : c = Char.ofNat 7 := by rw [← Char.ofNat_toNat c, h7]
        subst hc
        simp only [show escChar (Char.ofNat 7) = ['\\', 'a'] from by decide,
          List.cons_append, List.nil_append] at h
        rw [jsonStrBody_esc_a] at h
        exact absurd h (by simp)
      by_cases h8 : c.toNat = 8
      · have hc : c = Char.ofNat 8 := by rw [← Char.ofNat_toNat c, h8]
        subst hc
        simp only [show escChar (Char.ofNat 8) = ['\\', 'b'] from by decide,
          List.cons_append, List.nil_append] at h
        rw [jsonStrBody_esc_b, Option.map_eq_some'] at h
        obtain ⟨r1, hr1, hr2⟩ := h
        rw [← hr2, ih fuel r1 hr1]
      by_cases h11 : c.toNat = 11
      · have hc : c = Char.ofNat 11 := by rw [← Char.ofNat_toNat c, h11]
        subst hc
        simp only [show escChar (Char.ofNat 11) = ['\\', 'v'] from by decide,
          List.cons_append, List.nil_append] at h
        rw [jsonStrBody_esc_v] at h
        exact absurd h (by simp)
      by_cases h12 : c.toNat = 12
      · have hc : c = Char.ofNat 12 := by rw [← Char.ofNat_toNat c, h12]
        subst hc
        simp only [show escChar (Char.ofNat 12) = ['\\', 'f'] from by decide,
          List.cons_append, List.nil_append] at h
        rw [jsonStrBody_esc_f, Option.map_eq_some'] at h
        obtain ⟨r1, hr1, hr2⟩ := h
        rw [← hr2, ih fuel r1 hr1]
      by_cases hplain : 32 ≤ c.toNat ∧ c.toNat < 127
      · simp only [escChar_plain hq hb hplain.1 hplain.2, List.singleton_append] at h
        rw [jsonStrBody_cons_plain fuel c _ hq hb (by omega), Option.map_eq_some'] at h
        obtain ⟨r1, hr1, hr2⟩ := h
        rw [← hr2, ih fuel r1 hr1]
      by_cases hx : c.toNat < 128
      · simp only [escChar_x hn htb hcr h7 h8 h11 h12 hx hplain, List.cons_append,
          List.nil_append] at h
        rw [jsonStrBody_esc_x] at h
        exact absurd h (by simp)
      by_cases hu : c.toNat < 65536
      · simp only [escChar_u (by omega) hu, List.cons_append, List.nil_append] at h
        rw [jsonStrBody_cons_unicode fuel c.toNat _ hu (char_not_surrogate c),
          Char.ofNat_toNat, Option.map_eq_some'] at h
        obtain ⟨r1, hr1, hr2⟩ := h
        rw [← hr2, ih fuel r1 hr1]
      · simp only [escChar_U (c := c) (by omega), List.cons_append, List.nil_append] at h
        rw [jsonStrBody_esc_U] at h
        exact absurd h (by simp)

/-- The JSON-unescape pass of `cleanupContent` is the identity: on decode
success it returns exactly its input (the quoting is inverted), and on
decode failure it returns the input unchanged by construction. -/
theorem unescapeUnicodeJSON_fst (s : List Char) : (unescapeUnicodeJSON s).1 = s := by
  rw [unescapeUnicodeJSON]
  have hg : jsonUnquote (goQuote s) =
      jsonStrBody ((s.map escChar).flatten ++ ['"']).length
        ((s.map escChar).flatten ++ ['"']) := rfl
  cases h : jsonUnquote (goQuote s) with
  | none => rfl
  | some r =>
    rw [hg] at h
    simp [jsonStrBody_escBody s _ r h]

/-- A pattern whose first character does not occur in `s` is not contained
in `s`. -/
theorem containsSub_head_not_mem {p0 : Char} {pr s : List Char} (h : p0 ∉ s) :
    containsSub (p0 :: pr) s = false := by
  induction s with
  | nil => rfl
  | cons a rest ih =>
    rw [containsSub]
    have ha : (p0 :: pr).isPrefixOf (a :: rest) = false := by
      rw [Bool.eq_false_iff]
      intro hp
      rw [List.isPrefixOf_iff_prefix] at hp
      obtain ⟨t, ht⟩ := hp
      rw [List.cons_append] at ht
      injection ht with h1 _
      exact h (h1 ▸ List.mem_cons_self a rest)
    rw [ha, ih (fun hm => h (List.mem_cons_of_mem a hm))]
    rfl

/-- Every character of `applyEntities s` is a character of `s` or one of
the replacement characters of the entity table. -/
theorem mem_applyEntities {s : List Char} {c : Char} (hc : c ∈ applyEntities s) :
    c ∈ s ∨ c = ' ' ∨ c = '&' ∨ c = '<' ∨ c = '>' ∨ c = '"' ∨ c = '\'' := by
  have hunf : applyEntities s =
      replaceAll (str "&apos;") (str "'")
        (replaceAll (str "&#39;") (str "'")
          (replaceAll (str "&quot;") (str "\"")
            (replaceAll (str "&gt;") (str ">")
              (replaceAll (str "&lt;") (str "<")
                (replaceAll (str "&amp;") (str "&")
                  (replaceAll (str "&nbsp;") (str " ") s)))))) := rfl
  rw [hunf] at hc
  rcases mem_replaceAll hc with h | hc
  · exact Or.inr (Or.inr (Or.inr (Or.inr (Or.inr (Or.inr (by simpa [str] using h))))))
  rcases mem_replaceAll hc with h | hc
  · exact Or.inr (Or.inr (Or.inr (Or.inr (Or.inr (Or.inr (by simpa [str] using h))))))
  rcases mem_replaceAll hc with h | hc
  · exact Or.inr (Or.inr (Or.inr (Or.inr (Or.inr (Or.inl (by simpa [str] using h))))))
  rcases mem_replaceAll hc with h | hc
  · exact Or.inr (Or.inr (Or.inr (Or.inr (Or.inl (by simpa [str] using h)))))
  rcases mem_replaceAll hc with h | hc
  · exact Or.inr (Or.inr (Or.inr (Or.inl (by simpa [str] using h))))
  rcases mem_replaceAll hc with h | hc
  · exact Or.inr (Or.inr (Or.inl (by simpa [str] using h)))
  rcases mem_replaceAll hc with h | hc
  · exact Or.inr (Or.inl (by simpa [str] using h))
  · exact Or.inl hc

/-- `cleanupContent` with the (always-identity) unescape step removed. -/
theorem cleanupContent_eq (content : List Char) :
    cleanupContent content =
      applyEntities (replaceAll (str "\\\"") (str "\"")
        (if content.length > 2 ∧ content.head? = some '"' ∧ content.getLast? = some '"'
         then (content.drop 1).dropLast else content)) := by
  rw [cleanupContent, unescapeUnicodeJSON_fst]

/-- C5 counterexample: the input `&amp;amp;` contains no quote and no
backslash, yet one cleanup pass yields `&amp;` and a second pass yields `&`
— the entity-replacement step re-examines the text it produced, so a nested
encoding needs two passes and the claimed idempotence fails. -/
theorem c5_counterexample_nested_entity :
    ('"' ∉ str "&amp;amp;") ∧ ('\\' ∉ str "&amp;amp;") ∧
      cleanupContent (str "&amp;amp;") = str "&amp;" ∧
      cleanupContent (cleanupContent (str "&amp;amp;")) = str "&" ∧
      cleanupContent (cleanupContent (str "&amp;amp;")) ≠
        cleanupContent (str "&amp;amp;") := by
  decide

/-- C5 (amended): `cleanupContent` is idempotent on an input free of quote
characters and backslash escapes, provided additionally that the result of
the first pass contains none of the seven entity strings (which fails for
nested encodings such as `&amp;amp;`) and does not both start and end with
a double quote while longer than two characters (which fails for inputs
such as `&quot;a&quot;`, whose once-cleaned form the quote-stripping step
would shorten again). -/
theorem c5_cleanupContent_conditionally_idempotent (s : List Char)
    (hq : '"' ∉ s) (hb : '\\' ∉ s)
    (hent : ∀ p, p ∈ htmlReplacements → containsSub p.1 (cleanupContent s) = false)
    (hqs : ¬ ((cleanupContent s).length > 2 ∧ (cleanupContent s).head? = some '"' ∧
        (cleanupContent s).getLast? = some '"')) :
    cleanupContent (cleanupContent s) = cleanupContent s := by
  obtain ⟨t, htdef⟩ : ∃ t, cleanupContent s = t := ⟨_, rfl⟩
  rw [htdef] at hent hqs
  rw [htdef]
  have hbt : '\\' ∉ t := by
    intro hm
    rw [← htdef, cleanupContent_eq] at hm
    rcases mem_applyEntities hm with hm | h | h | h | h | h | h
    · rcases mem_replaceAll hm with h | hm2
      · simp [str] at h
      · revert hm2
        split
        · intro hm2
          exact hb (List.drop_subset 1 s ((List.dropLast_sublist _).subset hm2))
        · intro hm2
          exact hb hm2
    all_goals simp at h
  rw [cleanupContent_eq t, if_neg hqs]
  have h2 : replaceAll (str "\\\"") (str "\"") t = t := by
    refine replaceAll_of_not_contains ?_
    have hsh : str "\\\"" = '\\' :: ['"'] := rfl
    rw [hsh]
    exact containsSub_head_not_mem hbt
  rw [h2]
  have e1 : replaceAll (str "&nbsp;") (str " ") t = t :=
    replaceAll_of_not_contains
      (hent (str "&nbsp;", str " ") (by simp [htmlReplacements]))
  have e2 : replaceAll (str "&amp;") (str "&") t = t :=
    replaceAll_of_not_contains
      (hent (str "&amp;", str "&") (by simp [htmlReplacements]))
  have e3 : replaceAll (str "&lt;") (str "<") t = t :=
    replaceAll_of_not_contains
      (hent (str "&lt;", str "<") (by simp [htmlReplacements]))
  have e4 : replaceAll (str "&gt;") (str ">") t = t :=
    replaceAll_of_not_contains
      (hent (str "&gt;", str ">") (by simp [htmlReplacements]))
  have e5 : replaceAll (str "&quot;") (str "\"") t = t :=
    replaceAll_of_not_contains
      (hent (str "&quot;", str "\"") (by simp [htmlReplacements]))
  have e6 : replaceAll (str "&#39;") (str "'") t = t :=
    replaceAll_of_not_contains
      (hent (str "&#39;", str "'") (by simp [htmlReplacements]))
  have e7 : replaceAll (str "&apos;") (str "'") t = t :=
    replaceAll_of_not_contains
      (hent (str "&apos;", str "'") (by simp [htmlReplacements]))
  have happ : applyEntities t = t := by
    have hunf : applyEntities t =
        replaceAll (str "&apos;") (str "'")
          (replaceAll (str "&#39;") (str "'")
            (replaceAll (str "&quot;") (str "\"")
              (replaceAll (str "&gt;") (str ">")
                (replaceAll (str "&lt;") (str "<")
                  (replaceAll (str "&amp;") (str "&")
                    (replaceAll (str "&nbsp;") (str " ") t)))))) := rfl
    rw [hunf, e1, e2, e3, e4, e5, e6, e7]
  rw [happ]

/-- Witness for C5 at a concrete entity-free input. -/
theorem c5_witness :
    cleanupContent (cleanupContent (str "hello")) = cleanupContent (str "hello") :=
  c5_cleanupContent_conditionally_idempotent (str "hello") (by decide) (by decide)
    (by decide) (by decide)
